import Mathlib

/-!
Verification development for the exporter-evaluation pipeline of the
`onnx-diagnostic` repository.

The definitions below are a shallow embedding of
`onnx_diagnostic/torch_export_patches/eval/__init__.py` (the Exporter
Runner, Discrepancy Scorer and Evaluation Driver), of
`onnx_diagnostic/helpers/args_helper.py` (`get_parsed_args` post-processing),
of `onnx_diagnostic/torch_models/hghub/model_inputs.py`
(`filter_out_unexpected_inputs`), and — modelled from the spec, since its
implementation file is not part of the sources at hand — of
`all_dynamic_shape_from_inputs`.

Python dictionaries are embedded as ordered association lists
(`List (String × α)`), with `dictSet` embedding `d[k] = v` and `dictUpdate`
embedding `d.update(other)`.  External calls (torch export, onnxruntime,
model execution, `max_diff`) are abstracted as data describing their
outcome: `Except String _` is a call that either returns or raises, and an
opaque Python object is `RVal.obj i`.  Floating point discrepancy values are
embedded as rationals; the literal `0.1` of the source is the exact rational
`1/10` here.
-/

/-- Embedding of the Python dictionary assignment `d[k] = v` on an ordered
association list: if the key is present every binding of that key is
replaced (keys are unique in a Python dict, so there is exactly one),
otherwise the binding is appended at the end, as Python dicts preserve
insertion order. -/
def dictSet {α : Type} (r : List (String × α)) (k : String) (v : α) :
    List (String × α) :=
  if r.any (fun kv => kv.1 == k) then
    r.map (fun kv => if kv.1 = k then (k, v) else kv)
  else r ++ [(k, v)]

/-- Embedding of the Python dictionary method `r.update(upd)`: each binding
of `upd` is assigned into `r` in order. -/
def dictUpdate {α : Type} (r upd : List (String × α)) : List (String × α) :=
  upd.foldl (fun acc kv => dictSet acc kv.1 kv.2) r

/-- Embedding of the Python dictionary read `r[k]` / `r.get(k)`: the value
bound to the first occurrence of `k`. -/
def dictGet {α : Type} (k : String) : List (String × α) → Option α
  | [] => none
  | kv :: rest => if kv.1 = k then some kv.2 else dictGet k rest

/-- Values stored in an outcome record: strings, Python ints, discrepancy
floats (as rationals), and opaque Python objects (model, exported artifact,
inputs, …) identified by a tag. -/
inductive RVal where
  | s (v : String)
  | i (n : Int)
  | q (v : ℚ)
  | obj (tag : Nat)
deriving DecidableEq, Repr

/-- An exporter outcome record (a Python dict). -/
abbrev Record := List (String × RVal)

/-- Embedding of the scoring step of `run_exporter`
(`torch_export_patches/eval/__init__.py`, lines 620-637): after
`del disc["n"]; del disc["sum"]` the discrepancy dict holds the maximum
absolute difference `a` and relative difference `r`; it is then updated with
`success=1 if disc["abs"] < 0.1 else 0` plus the opaque `model_cls`,
`exported` and `onnx` entries, and when `disc["abs"] >= 0.1` the entries
`error = error_step = "diff.0"` are set, otherwise `disc["success"] = 1` is
(re-)assigned. -/
def scoreDisc (a r : ℚ) : Record :=
  let disc : Record := [("abs", RVal.q a), ("rel", RVal.q r)]
  let disc := dictUpdate disc
    [("success", RVal.i (if a < 1/10 then 1 else 0)),
     ("model_cls", RVal.obj 5), ("exported", RVal.obj 6),
     ("onnx", RVal.obj 7)]
  if a ≥ 1/10 then
    dictUpdate disc [("error", RVal.s "diff.0"), ("error_step", RVal.s "diff.0")]
  else
    dictSet disc "success" (RVal.i 1)

/-- Values appearing in a model's example inputs: tensor-like leaves (their
integer shape recorded), `None`, Python ints/floats, symbolic scalars, and
nested lists/tuples.  This is the closed variant model of the containers
`_flatten_inputs` walks. -/
inductive PyVal where
  | tensor (shape : List Nat)
  | pynone
  | pyint (n : Int)
  | pyfloat (v : ℚ)
  | symInt
  | symFloat
  | pylist (xs : List PyVal)
  | pytuple (xs : List PyVal)

/-- Embedding of the body of `_flatten_inputs`
(`torch_export_patches/eval/__init__.py`, lines 115-131) on the items of a
list or tuple: an item that is `None`, a tensor, a symbolic scalar, an int
or a float is appended as a leaf; a nested list or tuple is flattened
recursively and spliced in. -/
def flattenItems : List PyVal → List PyVal
  | [] => []
  | PyVal.pylist xs :: rest => flattenItems xs ++ flattenItems rest
  | PyVal.pytuple xs :: rest => flattenItems xs ++ flattenItems rest
  | v :: rest => v :: flattenItems rest

/-- Embedding of `_flatten_inputs` (lines 107-132): defined on lists and
tuples; any other argument hits the final `raise AssertionError` (`none`
here).  (The source returns `x` unchanged when `x is None`; that case is
never reached from `run_exporter`.) -/
def _flatten_inputs : PyVal → Option (List PyVal)
  | PyVal.pylist xs => some (flattenItems xs)
  | PyVal.pytuple xs => some (flattenItems xs)
  | _ => none

/-- Result of one stage of `run_exporter`: either a returned outcome record
or a propagated Python exception. -/
inductive StepOut where
  | record (r : Record)
  | raised (e : String)
deriving DecidableEq, Repr

/-- The `base` dict built at line 486 of `run_exporter`:
`dict(inputs=inputs, model=model, dynamic_shapes=dynamic_shapes)`, the three
values being opaque Python objects. -/
def baseRecord : Record :=
  [("inputs", RVal.obj 0), ("model", RVal.obj 1), ("dynamic_shapes", RVal.obj 2)]

/-- The `base` dict as extended on the to-graph path (lines 523-524):
`base["onx"] = onx; base["builder"] = builder`. -/
def onnxBase : Record :=
  dictUpdate baseRecord [("onx", RVal.obj 3), ("builder", RVal.obj 4)]

/-- Embedding of line 536 of `run_exporter`:
`flats = _flatten_inputs(inputs[0]) if len(names) > len(inputs[0]) else inputs[0]`
with `inputs[0]` a tuple whose items are `inputs0`. -/
def alignFlats (names : List String) (inputs0 : List PyVal) : List PyVal :=
  if names.length > inputs0.length then flattenItems inputs0 else inputs0

/-- Embedding of the input-name reconciliation of `run_exporter`
(lines 535-551): after aligning counts through `_flatten_inputs`, a
persistent mismatch raises (`assert quiet or ...`) when `quiet` is off and
otherwise returns the record `dict(error=..., success=0, error_step="inputs")`
updated with `base`; `none` means execution continues.  The interpolated
error text of the source is abbreviated to a fixed string. -/
def inputsCheck (quiet : Bool) (names : List String) (inputs0 : List PyVal)
    (base : Record) : Option StepOut :=
  let flats := alignFlats names inputs0
  if ¬quiet ∧ names.length ≠ flats.length then
    some (StepOut.raised "Input mismatch")
  else if names.length ≠ flats.length then
    some (StepOut.record (dictUpdate
      [("error", RVal.s "Input mismatch"), ("success", RVal.i 0),
       ("error_step", RVal.s "inputs")] base))
  else none

/-- One dimension of a declared graph input in the serialized graph format:
`dim_param` is the symbolic name (the empty string when the dimension is a
fixed integer, as in the protobuf encoding) and `dim_value` the fixed
size. -/
structure PDim where
  dimParam : String
  dimValue : Int
deriving DecidableEq, Repr

/-- A declared input of the serialized graph: its name and its per-axis
dimensions.  (`i.type.tensor_type` is always truthy on a protobuf message,
so the source's guard at line 641 never filters anything.) -/
structure GraphInput where
  name : String
  dims : List PDim
deriving DecidableEq, Repr

/-- Embedding of the symbolic-dimension collection of `run_exporter`
(lines 639-644): every `(input name, axis index, dim_param)` triple whose
`dim_param` is non-empty. -/
def dynamicDims (gis : List GraphInput) : List (String × Nat × String) :=
  gis.flatMap (fun i =>
    i.dims.enum.filterMap (fun p =>
      if p.2.dimParam ≠ "" then some (i.name, p.1, p.2.dimParam) else none))

/-- Embedding of the dynamism-absence check of `run_exporter`
(lines 638-648): on a dynamic run that produced a serialized graph
(`onx is not None`), if no declared input dimension is symbolic the run
returns the fresh record
`dict(error="no dynamic shape", success=0, error_step="dynamic")`;
otherwise (`none`) execution continues. -/
def dynamicCheck (dynamic hasOnx : Bool) (gis : List GraphInput) : Option Record :=
  if dynamic ∧ hasOnx then
    if dynamicDims gis = [] then
      some [("error", RVal.s "no dynamic shape"), ("success", RVal.i 0),
            ("error_step", RVal.s "dynamic")]
    else none
  else none

/-- Whether one character list starts with another. -/
def charsStart : List Char → List Char → Bool
  | _, [] => true
  | [], _ :: _ => false
  | c :: cs, d :: ds => c == d && charsStart cs ds

/-- Embedding of Python's `s.startswith(pre)` (`String.startsWith` of the
Lean library is an opaque extern and would not compute). -/
def pyStartswith (s pre : String) : Bool := charsStart s.toList pre.toList

/-- Result of one export-variant invocation: a runnable artifact (opaque
here), a returned failure record, or a propagated exception. -/
inductive ExpResult where
  | artifact
  | record (r : Record)
  | raised (e : String)
deriving DecidableEq, Repr

/-- The shared `try/except` body each export variant wraps its export call
in (`_make_exporter_export`, lines 187-202 and the analogous blocks of the
other branches): on an exception the call either re-raises (`quiet` off) or
returns `dict(error=str(e), success=0, error_step="export")`. -/
def _export_try (quiet : Bool) (call : Except String Unit) : ExpResult :=
  match call with
  | Except.ok _ => ExpResult.artifact
  | Except.error e =>
    if ¬quiet then ExpResult.raised e
    else ExpResult.record
      [("error", RVal.s e), ("success", RVal.i 0), ("error_step", RVal.s "export")]

/-- The shared `try/except` body of the to-graph variants
(`_make_exporter_onnx`, lines 346-374 and analogous): on an exception the
call re-raises a wrapping `RuntimeError` (`quiet` off) or returns
`dict(error=str(e), success=0, error_step="export")`. -/
def _onnx_try (quiet : Bool) (call : Except String Unit) : ExpResult :=
  match call with
  | Except.ok _ => ExpResult.artifact
  | Except.error e =>
    if ¬quiet then ExpResult.raised ("Unable to convert model: " ++ e)
    else ExpResult.record
      [("error", RVal.s e), ("success", RVal.i 0), ("error_step", RVal.s "export")]

/-- Embedding of `_make_exporter_export` (lines 176-323).  The underlying
`torch.export.export` / tracing call is abstracted as `call`; each
enumerated variant wraps it in the same `try/except`, and an unexpected
exporter name hits the final `raise AssertionError` regardless of
`quiet`. -/
def _make_exporter_export (exporter : String) (quiet : Bool)
    (call : Except String Unit) : ExpResult :=
  if exporter = "export-strict" then _export_try quiet call
  else if exporter = "export-strict-dec" ∨ exporter = "export-strict-decall" then
    _export_try quiet call
  else if exporter = "export-nostrict" then _export_try quiet call
  else if exporter = "export-nostrict-dec" ∨ exporter = "export-nostrict-decall" then
    _export_try quiet call
  else if exporter = "export-tracing" then _export_try quiet call
  else ExpResult.raised ("Unexpected exporter=" ++ exporter)

/-- Embedding of `_make_exporter_onnx` (lines 326-446): the `custom*`
variants (option flags parsed from the name), `dynamo` and `dynamo-ir`, all
wrapping their conversion call in the same `try/except`; an unexpected name
hits the final `raise AssertionError`. -/
def _make_exporter_onnx (exporter : String) (quiet : Bool)
    (call : Except String Unit) : ExpResult :=
  if pyStartswith exporter "custom" then _onnx_try quiet call
  else if exporter = "dynamo" then _onnx_try quiet call
  else if exporter = "dynamo-ir" then _onnx_try quiet call
  else ExpResult.raised ("Unexpected exporter=" ++ exporter)

/-- The export-variant dispatch of `run_exporter` (lines 497-517):
`export-*` names go to `_make_exporter_export`, the rest to
`_make_exporter_onnx`. -/
def _make_exporter (exporter : String) (quiet : Bool)
    (call : Except String Unit) : ExpResult :=
  if pyStartswith exporter "export-" then _make_exporter_export exporter quiet call
  else _make_exporter_onnx exporter quiet call

/-- The fixed enumerated set of exporter variants handled by the two
`_make_exporter_*` functions (for `custom` the representative option
combinations exercised by the evaluation driver). -/
def exporterVariants : List String :=
  ["export-strict", "export-strict-dec", "export-strict-decall",
   "export-nostrict", "export-nostrict-dec", "export-nostrict-decall",
   "export-tracing",
   "custom", "custom-strict", "custom-fallback", "custom-tracing",
   "custom-dec", "custom-decall", "custom-nostrict",
   "dynamo", "dynamo-ir"]

/-- Outcome of re-running one example input through the pipeline of the
multi-example loop of `run_exporter` (lines 650-690): `eagerRaise` is an
exception from `model(*_clone(i))` at line 652 (which stands OUTSIDE the
`try` blocks), `runFail` an exception from `mod(*i)` (line 654), `discFail`
an exception from `max_diff` (line 665), and `scored` a computed
`(abs, rel)` discrepancy pair. -/
inductive ExOutcome where
  | eagerRaise (e : String)
  | runFail (e : String)
  | discFail (e : String)
  | scored (abs rel : ℚ)
deriving DecidableEq, Repr

/-- The per-example overwrite dict of the multi-example loop (lines
683-689): the rescored `d` after `del d["n"]; del d["sum"]`, extended with
`error`, `error_step` (both `"diff.<index>"`) and `success = 0`, as merged
into the aggregate record by `disc.update(d)`. -/
def overwriteDisc (disc : Record) (a r : ℚ) (index : Nat) : Record :=
  dictUpdate disc
    [("abs", RVal.q a), ("rel", RVal.q r),
     ("error", RVal.s ("diff." ++ toString index)),
     ("error_step", RVal.s ("diff." ++ toString index)),
     ("success", RVal.i 0)]

/-- Result of the multi-example loop: an early `return` with a fresh record,
a propagated exception, or fall-through with the (possibly overwritten)
aggregate record. -/
inductive LoopRes where
  | early (r : Record)
  | raisedL (e : String)
  | done (d : Record)
deriving DecidableEq, Repr

/-- Embedding of the multi-example re-check loop of `run_exporter`
(lines 650-690), iterating `enumerate(inputs)` — note this starts at the
FIRST example again.  `model(*_clone(i))` raising propagates regardless of
`quiet` (line 652 is outside the `try`); `mod(*i)` or `max_diff` raising
returns a fresh record (`run.<index>` / `discrepancy.<index>`) in quiet mode
and re-raises otherwise; a rescored example with `abs >= 0.1` overwrites the
aggregate record's fields via `disc.update(d)`. -/
def multiLoop (quiet : Bool) : Record → Nat → List ExOutcome → LoopRes
  | disc, _, [] => LoopRes.done disc
  | _, _, ExOutcome.eagerRaise e :: _ => LoopRes.raisedL e
  | _, index, ExOutcome.runFail e :: _ =>
    if ¬quiet then LoopRes.raisedL ("onnxruntime failed: " ++ e)
    else LoopRes.early
      [("error", RVal.s e), ("success", RVal.i 0),
       ("error_step", RVal.s ("run." ++ toString index))]
  | _, index, ExOutcome.discFail e :: _ =>
    if ¬quiet then LoopRes.raisedL e
    else LoopRes.early
      [("error", RVal.s e), ("success", RVal.i 0),
       ("error_step", RVal.s ("discrepancy." ++ toString index))]
  | disc, index, ExOutcome.scored a r :: rest =>
    if a ≥ 1/10 then multiLoop quiet (overwriteDisc disc a r index) (index + 1) rest
    else multiLoop quiet disc (index + 1) rest

/-- The list of per-example outcomes in which every re-execution scored
(no exception at any stage). -/
def scoredOutcomes (ds : List (ℚ × ℚ)) : List ExOutcome :=
  ds.map (fun p => ExOutcome.scored p.1 p.2)

/-- The last example index (counting from `c`) whose absolute discrepancy
reaches the `0.1` threshold, with its `(abs, rel)` pair. -/
def lastFail (c : Nat) : List (ℚ × ℚ) → Option (Nat × ℚ × ℚ)
  | [] => none
  | p :: rest =>
    match lastFail (c + 1) rest with
    | some x => some x
    | none => if p.1 ≥ 1/10 then some (c, p.1, p.2) else none

/-- The abstracted behaviours of every external call one
`(case, dynamic, exporter)` evaluation makes: the export/conversion call,
the declared inputs of the produced graph (to-graph path), the
`onnxruntime.InferenceSession` construction, the first eager execution
`model(*_clone(inputs[0]))`, and the per-example run/score outcomes (used
for the first example at lines 580-602 and re-used by the multi-example
loop). -/
structure ExtCalls where
  exportCall : Except String Unit
  graphInputs : List GraphInput
  ortInit : Except String Unit
  eagerCall : Except String Unit
  outcomes : List ExOutcome

/-- A model case as consumed by `run_exporter`: its `_inputs` examples (each
a tuple of argument values) and the behaviour of the external calls for a
given dynamic flag and exporter. -/
structure Case where
  inputs : List (List PyVal)
  ext : Bool → String → ExtCalls

/-- The merge of the multi-example loop's result into the returned record
(lines 650-692): an early `return` inside the loop yields its fresh record,
a raised exception propagates, and fall-through ends with
`disc.update(base); return disc`. -/
def _loop_merge (quiet : Bool) (disc : Record) (outcomes : List ExOutcome)
    (base : Record) : StepOut :=
  match multiLoop quiet disc 0 outcomes with
  | LoopRes.early r0 => StepOut.record r0
  | LoopRes.raisedL e => StepOut.raised e
  | LoopRes.done disc2 => StepOut.record (dictUpdate disc2 base)

/-- The common tail of `run_exporter` (lines 568-692) once an artifact
exists: first eager execution on cloned inputs (lines 569-579), first
artifact run (lines 580-590), `base` extension with `expected`/`obtained`
(lines 592-593), first `max_diff` (lines 595-602), scoring (lines 620-637),
dynamism-absence check (lines 638-648), multi-example loop (lines 650-690)
and the final `disc.update(base)` (line 691). -/
def _run_exporter_tail (inputs : List (List PyVal)) (dynamic quiet : Bool)
    (ext : ExtCalls) (hasOnx : Bool) (base : Record) : StepOut :=
  match ext.eagerCall with
  | Except.error e =>
    if ¬quiet then StepOut.raised ("eager mode failed: " ++ e)
    else StepOut.record (dictUpdate
      [("error", RVal.s e), ("success", RVal.i 0), ("error_step", RVal.s "eager")]
      base)
  | Except.ok _ =>
    match ext.outcomes.headD (ExOutcome.scored 0 0) with
    | ExOutcome.eagerRaise e => StepOut.raised e
    | ExOutcome.runFail e =>
      if ¬quiet then StepOut.raised ("onnxruntime failed: " ++ e)
      else StepOut.record (dictUpdate
        [("error", RVal.s e), ("success", RVal.i 0), ("error_step", RVal.s "run.0")]
        base)
    | ExOutcome.discFail e =>
      let base := dictUpdate base [("expected", RVal.obj 8), ("obtained", RVal.obj 9)]
      if ¬quiet then StepOut.raised e
      else StepOut.record (dictUpdate
        [("error", RVal.s e), ("success", RVal.i 0),
         ("error_step", RVal.s "discrepancy")] base)
    | ExOutcome.scored a r =>
      let base := dictUpdate base [("expected", RVal.obj 8), ("obtained", RVal.obj 9)]
      let disc := scoreDisc a r
      match dynamicCheck dynamic hasOnx ext.graphInputs with
      | some rec0 => StepOut.record rec0
      | none =>
        if dynamic ∧ inputs.length > 1 then
          _loop_merge quiet disc ext.outcomes base
        else StepOut.record (dictUpdate disc base)

/-- Embedding of `run_exporter` (lines 449-692).  The `inputs[0]` example is
the head of `c.inputs` (the source indexes a nonempty `_inputs`); the
`export-*` variants produce a runnable module directly, the remaining
variants produce a serialized graph whose declared input names must be
reconciled with the flattened inputs and which is then loaded into an
inference session. -/
def run_exporter (exporter : String) (c : Case) (dynamic quiet : Bool) : StepOut :=
  let ext := c.ext dynamic exporter
  let inputs0 := c.inputs.headD []
  if pyStartswith exporter "export-" then
    match _make_exporter_export exporter quiet ext.exportCall with
    | ExpResult.record r => StepOut.record r
    | ExpResult.raised e => StepOut.raised e
    | ExpResult.artifact =>
      _run_exporter_tail c.inputs dynamic quiet ext false baseRecord
  else
    match _make_exporter_onnx exporter quiet ext.exportCall with
    | ExpResult.record r => StepOut.record r
    | ExpResult.raised e => StepOut.raised e
    | ExpResult.artifact =>
      let base := onnxBase
      let names := ext.graphInputs.map GraphInput.name
      match inputsCheck quiet names inputs0 base with
      | some out => out
      | none =>
        match ext.ortInit with
        | Except.error e =>
          if ¬quiet then StepOut.raised e
          else StepOut.record (dictUpdate
            [("error", RVal.s e), ("success", RVal.i 0),
             ("error_step", RVal.s "ort-init")] base)
        | Except.ok _ => _run_exporter_tail c.inputs dynamic quiet ext true base

/-- Insertion of one named case into a name-sorted list (stable, ascending),
used to embed `sorted(cases.items())`. -/
def insertSorted (x : String × Case) : List (String × Case) → List (String × Case)
  | [] => [x]
  | y :: rest => if x.1 ≤ y.1 then x :: y :: rest else y :: insertSorted x rest

/-- Embedding of `sorted(cases.items())` at line 83 of `evaluation`. -/
def sortCases (l : List (String × Case)) : List (String × Case) :=
  l.foldr insertSorted []

/-- Embedding of `itertools.product(sorted_cases, dynamic, exporters)`
(line 84): the rightmost factor varies fastest. -/
def tripleProd (cs : List (String × Case)) (ds : List Bool) (es : List String) :
    List ((String × Case) × Bool × String) :=
  cs.flatMap (fun c => ds.flatMap (fun d => es.map (fun e => (c, d, e))))

/-- The driver's record post-processing (line 102):
`res.update(dict(name=name, dynamic=int(dyn), exporter=exporter))`. -/
def tagRecord (r : Record) (name : String) (dyn : Bool) (exporter : String) : Record :=
  dictUpdate r
    [("name", RVal.s name), ("dynamic", RVal.i (if dyn then 1 else 0)),
     ("exporter", RVal.s exporter)]

/-- The accumulation loop of `evaluation` (lines 98-103) in batch mode
(`quiet=True`): each combination's record is tagged and appended; an
exception raised through `run_exporter` propagates out of `evaluation`
(there is no surrounding handler), aborting the batch and losing the
records accumulated so far. -/
def evalLoop : List ((String × Case) × Bool × String) → Except String (List Record)
  | [] => Except.ok []
  | t :: rest =>
    match run_exporter t.2.2 t.1.2 t.2.1 true with
    | StepOut.raised e => Except.error e
    | StepOut.record r =>
      (evalLoop rest).map (fun obs => tagRecord r t.1.1 t.2.1 t.2.2 :: obs)

/-- Embedding of `evaluation` (lines 37-104) in batch mode (`quiet=True`),
for an explicit dictionary of cases (the `cases=None`/string/regex
preprocessing is outside this model): the sorted Cartesian product is
enumerated (`assert len(loop) > 0` raises on an empty product) and each
combination contributes one tagged record — unless an exception escapes
`run_exporter`. -/
def evaluation (exporters : List String) (dynamic : List Bool)
    (cases : List (String × Case)) : Except String (List Record) :=
  let loop := tripleProd (sortCases cases) dynamic exporters
  if loop.isEmpty then Except.error "No case to test" else evalLoop loop

/-- A heap of tensor objects: `size` references are allocated, `mem` gives
the contents (a flat list of integer entries) of each reference.  This
models Python object identity for the example-input tensors that
`run_exporter` stores and passes to the model and to the exported
artifact. -/
structure Store where
  size : Nat
  mem : Nat → List Int

/-- In-place writes: each reference in `refs` receives the corresponding
entry of `vals` (later writes shadow earlier ones, as in sequential
mutation). -/
def writeList : Store → List Nat → List (List Int) → Store
  | σ, [], _ => σ
  | σ, _, [] => σ
  | σ, rr :: rs, v :: vs =>
    writeList ⟨σ.size, fun i => if i = rr then v else σ.mem i⟩ rs vs

/-- Embedding of `_clone` (lines 164-173) applied to the argument tuple:
`x.clone()` produces fresh tensor objects with the same contents, so the
clone of `refs` is a block of fresh references (at `σ.size`, `σ.size + 1`,
…) whose contents copy the originals. -/
def cloneArgs (σ : Store) (refs : List Nat) : Store × List Nat :=
  (⟨σ.size + refs.length,
    fun i => if i < σ.size then σ.mem i else σ.mem (refs.getD (i - σ.size) 0)⟩,
   (List.range refs.length).map (fun j => σ.size + j))

/-- The in-place behaviour of a Python callable on its tensor arguments: it
reads the contents of the argument objects and returns an (opaque) output
tag together with the new contents it leaves in each argument object. -/
def Effect : Type := List (List Int) → Nat × List (List Int)

/-- Calling a callable on argument objects: read the contents, apply the
effect, write the new contents back in place. -/
def callOn (eff : Effect) (σ : Store) (refs : List Nat) : Nat × Store :=
  let vals := refs.map σ.mem
  let out := eff vals
  (out.1, writeList σ refs out.2)

/-- Embedding of the execution step of `run_exporter` (lines 568-581): the
eager reference run is `expected = model(*_clone(inputs[0]))` — the model
executes on freshly cloned argument objects — while the exported artifact
runs as `got = mod(*inputs[0])`, directly on the stored example-input
objects.  Returns `(expected, got, final store)`. -/
def execPhase (modelEff modEff : Effect) (σ : Store) (inputs0 : List Nat) :
    Nat × Nat × Store :=
  let cl := cloneArgs σ inputs0
  let expectedRun := callOn modelEff cl.1 cl.2
  let gotRun := callOn modEff expectedRun.2 inputs0
  (expectedRun.1, gotRun.1, gotRun.2)

/-- A store with one tensor object `[5]`. -/
def storeEx : Store := ⟨1, fun _ => [5]⟩

/-- A model effect that overwrites its (cloned) arguments in place with
`[9]`. -/
def mutatingModel : Effect := fun _ => (0, [[9]])

/-- An artifact effect that overwrites its arguments in place with `[7]`. -/
def mutatingArtifact : Effect := fun _ => (1, [[7]])

/-- An artifact effect that leaves its arguments' contents unchanged. -/
def pureArtifact : Effect := fun vals => (1, vals)

/-- Modelled from the spec: `all_dynamic_shape_from_inputs`
(`onnx_diagnostic/export/shape_helper.py`, whose implementation is not among
the sources at hand; only its unit test
`_unittests/ut_export/test_shape_helper.py` is).  Nested example-input
containers holding tensor leaves, as walked by the single-example
all-dynamic classification path. -/
inductive ITree where
  | tensor (shape : List Nat)
  | tup (xs : List ITree)
  | lst (xs : List ITree)

/-- A per-axis dynamic-dimension entry: a generated symbolic name, or the
caller-supplied placeholder token (e.g. `torch.export.Dim.AUTO`). -/
inductive DimVal where
  | sym (s : String)
  | auto
deriving DecidableEq, Repr

/-- The dynamic-shape specification produced for one nested input: tensor
leaves become mappings from axis index to a `DimVal`, containers keep their
structure. -/
inductive DTree where
  | leaf (axes : List (Nat × DimVal))
  | tup (xs : List DTree)
  | lst (xs : List DTree)

mutual

/-- Modelled from the spec: the single-example all-dynamic classification
path classifies EVERY tensor axis as dynamic, producing one fresh symbolic
name per (leaf, axis) pair in the deterministic format
`<prefix>_<leaf_index>_<axis_index>` from a running leaf counter — or,
when the caller supplies a placeholder token instead of a naming prefix,
filling every axis slot with that shared token.  `allDynT` transforms one
subtree given the running leaf counter and returns the new counter. -/
def allDynT (pfx : Option String) : ITree → Nat → DTree × Nat
  | ITree.tensor shape, c =>
    (DTree.leaf ((List.range shape.length).map (fun a =>
      (a, match pfx with
          | some p => DimVal.sym (s!"{p}_{c}_{a}")
          | none => DimVal.auto))), c + 1)
  | ITree.tup xs, c => (fun r => (DTree.tup r.1, r.2)) (mapLeaves pfx xs c)
  | ITree.lst xs, c => (fun r => (DTree.lst r.1, r.2)) (mapLeaves pfx xs c)

/-- Modelled from the spec: the traversal of the children of a container by
the single-example all-dynamic path, threading the leaf counter left to
right. -/
def mapLeaves (pfx : Option String) : List ITree → Nat → List DTree × Nat
  | [], c => ([], c)
  | x :: rest, c =>
    let r1 := allDynT pfx x c
    let r2 := mapLeaves pfx rest r1.2
    (r1.1 :: r2.1, r2.2)

end

/-- Modelled from the spec: `all_dynamic_shape_from_inputs(inputs)` with the
default dim-prefix `"d"` (or a placeholder token in place of the prefix,
encoded as `none`), starting the leaf counter at 0. -/
def all_dynamic_shape_from_inputs (x : ITree) (pfx : Option String) : DTree :=
  (allDynT pfx x 0).1

/-- A value held in the parsed-arguments namespace of `get_parsed_args`
(`helpers/args_helper.py`): an int, a float (as an exact rational), a
string, or `None` (an argument with no default, e.g. `--scenario`). -/
inductive AVal where
  | aInt (n : Int)
  | aFloat (v : ℚ)
  | aStr (s : String)
  | aNone
deriving DecidableEq, Repr

/-- The numeric value of a nonempty all-digit character list. -/
def digitsToNat (cs : List Char) : Nat :=
  cs.foldl (fun a c => a * 10 + (c.toNat - 48)) 0

/-- Parses a nonempty run of decimal digits, else fails. -/
def parseDigits (cs : List Char) : Option Nat :=
  if cs ≠ [] ∧ cs.all Char.isDigit then some (digitsToNat cs) else none

/-- Embedding of Python's `int(s)` on a string: an optional sign followed by
decimal digits (surrounding whitespace and underscore separators of the
builtin are not modelled); anything else raises `ValueError` (`none`). -/
def pyIntOfString (s : String) : Option Int :=
  match s.toList with
  | '-' :: rest => (parseDigits rest).map (fun n => -(n : Int))
  | '+' :: rest => (parseDigits rest).map (fun n => (n : Int))
  | cs => (parseDigits cs).map (fun n => (n : Int))

/-- Embedding of Python's `float(s)` on a string: an optional sign, an
integer part and an optional fractional part, at least one digit overall
(exponents, `inf` and `nan` are not modelled); anything else raises
`ValueError` (`none`). -/
def pyFloatOfString (s : String) : Option ℚ :=
  let body := fun (cs : List Char) =>
    let ip := cs.takeWhile Char.isDigit
    let rest := cs.dropWhile Char.isDigit
    match rest with
    | [] => if ip = [] then none else some ((digitsToNat ip : ℚ))
    | '.' :: frac =>
      if frac.all Char.isDigit ∧ (ip ≠ [] ∨ frac ≠ []) then
        some ((digitsToNat ip : ℚ) + (digitsToNat frac : ℚ) / (10 ^ frac.length : ℚ))
      else none
    | _ => none
  match s.toList with
  | '-' :: rest => (body rest).map (fun q => -q)
  | '+' :: rest => body rest
  | cs => body cs

/-- Embedding of Python's `int(v)` on a parsed-argument value: ints pass
through, floats truncate toward zero, strings parse as integers
(`ValueError` otherwise), `None` raises `TypeError`. -/
def pyInt : AVal → Option Int
  | AVal.aInt n => some n
  | AVal.aFloat v => some (v.num.tdiv v.den)
  | AVal.aStr s => pyIntOfString s
  | AVal.aNone => none

/-- Embedding of Python's `float(v)` on a parsed-argument value. -/
def pyFloat : AVal → Option ℚ
  | AVal.aInt n => some (n : ℚ)
  | AVal.aFloat v => some v
  | AVal.aStr s => pyFloatOfString s
  | AVal.aNone => none

/-- The per-argument conversion the post-parsing loop of `get_parsed_args`
(lines 116-131) performs: try `int(v)` first, then `float(v)`, else keep the
value. -/
def convertArg (v : AVal) : AVal :=
  match pyInt v with
  | some n => AVal.aInt n
  | none =>
    match pyFloat v with
    | some q => AVal.aFloat q
    | none => v

/-- The entry the loop contributes to the `update` dict for one parsed
argument, if any. -/
def convEntry (kv : String × AVal) : Option (String × AVal) :=
  match pyInt kv.2 with
  | some n => some (kv.1, AVal.aInt n)
  | none =>
    match pyFloat kv.2 with
    | some q => some (kv.1, AVal.aFloat q)
    | none => none

/-- The `update` dict built by the loop of `get_parsed_args`
(lines 116-129): iterating `res.__dict__.items()` in order, assigning
`update[k]` whenever `int(v)` or, failing that, `float(v)` succeeds. -/
def argUpdates (res : List (String × AVal)) : List (String × AVal) :=
  res.foldl
    (fun upd kv =>
      match convEntry kv with
      | some p => dictSet upd p.1 p.2
      | none => upd)
    []

/-- Embedding of the post-parsing normalisation of `get_parsed_args`
(lines 115-132): the parsed namespace dict is updated with every converted
value (`res.__dict__.update(update)`; the `if update:` guard changes
nothing when the update dict is empty). -/
def get_parsed_args_post (res : List (String × AVal)) : List (String × AVal) :=
  dictUpdate res (argUpdates res)

/-- Embedding of `filter_out_unexpected_inputs`
(`torch_models/hghub/model_inputs.py`, lines 255-267): keeps exactly the
entries of `kwargs` whose key is a parameter name of `model.forward`
(`allowed = set(sig.parameters)`), via the dict comprehension
`{k: v for k, v in kwargs.items() if k in allowed}`. -/
def filter_out_unexpected_inputs {α : Type} (allowed : List String)
    (kwargs : List (String × α)) : List (String × α) :=
  kwargs.filter (fun kv => allowed.contains kv.1)

/-- A model case exhibiting the unprotected eager re-execution of the
multi-example loop: two example inputs; every external call succeeds, the
first example scores a zero discrepancy, but the eager re-execution
`model(*_clone(i))` of the SECOND example raises `ValueError("boom")`.  The
raise at line 652 of `run_exporter` stands outside every `try` block. -/
def eagerBoomCase : Case :=
  { inputs := [[PyVal.tensor [5, 6]], [PyVal.tensor [1, 6]]],
    ext := fun _ _ =>
      { exportCall := Except.ok (),
        graphInputs := [],
        ortInit := Except.ok (),
        eagerCall := Except.ok (),
        outcomes := [ExOutcome.scored 0 0, ExOutcome.eagerRaise "boom"] } }

theorem dictGet_mapSet {α : Type} (k : String) (v : α) :
    ∀ r : List (String × α), k ∈ r.map Prod.fst →
      dictGet k (r.map (fun kv => if kv.1 = k then (k, v) else kv)) = some v := by
  intro r
  induction r with
  | nil => intro h; simp at h
  | cons kv rest ih =>
    obtain ⟨k1, v1⟩ := kv
    intro h
    by_cases hk : k1 = k
    · subst hk
      simp [dictGet]
    · have hmem : k ∈ rest.map Prod.fst := by
        rcases List.mem_map.mp h with ⟨p, hp, he⟩
        rcases List.mem_cons.mp hp with h1 | h2
        · rw [h1] at he
          exact absurd he hk
        · exact List.mem_map.mpr ⟨p, h2, he⟩
      simp only [List.map_cons, if_neg hk, dictGet]
      exact ih hmem

theorem dictGet_mapSet_ne {α : Type} (k k' : String) (v : α) (h : k' ≠ k) :
    ∀ r : List (String × α),
      dictGet k' (r.map (fun kv => if kv.1 = k then (k, v) else kv)) =
        dictGet k' r := by
  intro r
  induction r with
  | nil => simp
  | cons kv rest ih =>
    obtain ⟨k1, v1⟩ := kv
    by_cases hk : k1 = k
    · subst hk
      have hne : ¬ (k1 = k') := fun he => h (he ▸ rfl)
      simp only [List.map_cons, if_pos rfl, dictGet]
      rw [if_neg (fun he => h he.symm), if_neg hne]
      exact ih
    · simp only [List.map_cons, if_neg hk, dictGet]
      by_cases he : k1 = k'
      · rw [if_pos he, if_pos he]
      · rw [if_neg he, if_neg he]
        exact ih

theorem dictGet_append_single {α : Type} (k : String) (v : α) :
    ∀ r : List (String × α), (∀ kv ∈ r, kv.1 ≠ k) →
      dictGet k (r ++ [(k, v)]) = some v := by
  intro r
  induction r with
  | nil => simp [dictGet]
  | cons kv rest ih =>
    intro h
    have hne : kv.1 ≠ k := h kv (List.mem_cons_self kv rest)
    simp only [List.cons_append, dictGet]
    rw [if_neg hne]
    exact ih (fun p hp => h p (List.mem_cons_of_mem kv hp))

theorem dictGet_append_single_ne {α : Type} (k k' : String) (v : α) (h : k' ≠ k) :
    ∀ r : List (String × α), dictGet k' (r ++ [(k, v)]) = dictGet k' r := by
  intro r
  induction r with
  | nil =>
    simp only [List.nil_append, dictGet]
    rw [if_neg (fun he => h he.symm)]
  | cons kv rest ih =>
    simp only [List.cons_append, dictGet]
    by_cases he : kv.1 = k'
    · rw [if_pos he, if_pos he]
    · rw [if_neg he, if_neg he]
      exact ih

theorem any_key_iff {α : Type} (r : List (String × α)) (k : String) :
    r.any (fun kv => kv.1 == k) = true ↔ k ∈ r.map Prod.fst := by
  simp only [List.any_eq_true, List.mem_map, beq_iff_eq]

/-- `d[k] = v` makes a read of `k` return `v`. -/
theorem dictSet_get_self {α : Type} (r : List (String × α)) (k : String) (v : α) :
    dictGet k (dictSet r k v) = some v := by
  by_cases h : r.any (fun kv => kv.1 == k) = true
  · have hm := (any_key_iff r k).mp h
    simp only [dictSet, if_pos h]
    exact dictGet_mapSet k v r hm
  · have hm : ∀ kv ∈ r, kv.1 ≠ k := by
      intro kv hkv he
      exact h (List.any_eq_true.mpr ⟨kv, hkv, beq_iff_eq.mpr he⟩)
    simp only [dictSet, if_neg h]
    exact dictGet_append_single k v r hm

/-- `d[k] = v` leaves the read of any other key unchanged. -/
theorem dictSet_get_ne {α : Type} (r : List (String × α)) (k k' : String)
    (v : α) (h : k' ≠ k) : dictGet k' (dictSet r k v) = dictGet k' r := by
  by_cases ha : r.any (fun kv => kv.1 == k) = true
  · simp only [dictSet, if_pos ha]
    exact dictGet_mapSet_ne k k' v h r
  · simp only [dictSet, if_neg ha]
    exact dictGet_append_single_ne k k' v h r

/-- C1: for every computed discrepancy, the outcome record has `success = 1`
iff the maximum absolute difference is strictly below `0.1`; an absolute
difference of exactly `0.1` yields `success = 0` with
`error_step = "diff.0"`, and any value below `0.1` yields success with no
`error_step`. -/
theorem score_success_iff_below_threshold (a r : ℚ) :
    (dictGet "success" (scoreDisc a r) = some (RVal.i 1) ↔ a < 1/10)
    ∧ dictGet "error_step" (scoreDisc a r)
        = (if a < 1/10 then none else some (RVal.s "diff.0"))
    ∧ dictGet "success" (scoreDisc (1/10) r) = some (RVal.i 0)
    ∧ dictGet "error_step" (scoreDisc (1/10) r) = some (RVal.s "diff.0") := by
  by_cases h : a < 1/10
  · have h' : ¬ (a ≥ 1/10) := not_le.mpr h
    have h10 : ¬ ((1 : ℚ)/10 < 1/10) := lt_irrefl _
    constructor
    · simp only [scoreDisc, if_pos h, if_neg h']
      exact ⟨fun _ => h, fun _ => rfl⟩
    refine ⟨?_, ?_, ?_⟩
    · simp only [scoreDisc, if_pos h, if_neg h']
      rfl
    · simp only [scoreDisc, if_neg h10, if_pos (le_refl ((1 : ℚ)/10))]
      rfl
    · simp only [scoreDisc, if_neg h10, if_pos (le_refl ((1 : ℚ)/10))]
      rfl
  · have h' : a ≥ 1/10 := not_lt.mp h
    have h10 : ¬ ((1 : ℚ)/10 < 1/10) := lt_irrefl _
    constructor
    · simp only [scoreDisc, if_neg h, if_pos h']
      exact iff_of_false
        (fun hc => absurd (RVal.i.inj (Option.some.inj hc)) (by decide)) h
    refine ⟨?_, ?_, ?_⟩
    · simp only [scoreDisc, if_neg h, if_pos h']
      rfl
    · simp only [scoreDisc, if_neg h10, if_pos (le_refl ((1 : ℚ)/10))]
      rfl
    · simp only [scoreDisc, if_neg h10, if_pos (le_refl ((1 : ℚ)/10))]
      rfl

/-- C2: for every exporter variant, when the variant's export call raises
while quiet mode is on, the call returns a failure record holding exactly
the exception text under `error`, `success = 0` and `error_step = "export"`
(and nothing else), and the exception is never propagated; with quiet off
the exception is raised through (possibly wrapped). -/
theorem exporter_quiet_captures_export_failure :
    ∀ e ∈ exporterVariants, ∀ msg : String,
      _make_exporter e true (Except.error msg) =
        ExpResult.record
          [("error", RVal.s msg), ("success", RVal.i 0),
           ("error_step", RVal.s "export")]
      ∧ ∃ w, _make_exporter e false (Except.error msg) = ExpResult.raised w := by
  intro e he msg
  fin_cases he <;> exact ⟨rfl, ⟨_, rfl⟩⟩

/-- Witness for C2 at the `export-strict` variant and exception text
`"boom"`. -/
theorem exporter_quiet_captures_export_failure_witness :
    _make_exporter "export-strict" true (Except.error "boom") =
      ExpResult.record
        [("error", RVal.s "boom"), ("success", RVal.i 0),
         ("error_step", RVal.s "export")]
    ∧ ∃ w, _make_exporter "export-strict" false (Except.error "boom") =
        ExpResult.raised w :=
  exporter_quiet_captures_export_failure "export-strict"
    (by simp [exporterVariants]) "boom"

theorem dynamicDims_eq_nil_iff (gis : List GraphInput) :
    dynamicDims gis = [] ↔ ∀ i ∈ gis, ∀ d ∈ i.dims, d.dimParam = "" := by
  simp only [dynamicDims, List.flatMap_eq_nil_iff, List.filterMap_eq_nil_iff]
  constructor
  · intro h i hi d hd
    have h2 := h i hi
    rw [List.forall_mem_enum] at h2
    rcases List.mem_iff_getElem.mp hd with ⟨j, hj, he⟩
    have h3 := h2 j hj
    rw [he] at h3
    by_contra hne
    rw [if_pos hne] at h3
    exact Option.noConfusion h3
  · intro h i hi
    rw [List.forall_mem_enum]
    intro j hj
    have hx := h i hi (i.dims[j]) (List.getElem_mem hj)
    simp [hx]

/-- C3: on a dynamic-shape run that produced a serialized graph, if no
declared graph input carries a symbolic (non-integer) dimension the run
returns the failure record with `success = 0` and `error_step = "dynamic"`;
if at least one declared input dimension is symbolic, no such failure is
produced. -/
theorem dynamic_absence_check (gis : List GraphInput) :
    ((∀ i ∈ gis, ∀ d ∈ i.dims, d.dimParam = "") →
      dynamicCheck true true gis =
        some [("error", RVal.s "no dynamic shape"), ("success", RVal.i 0),
              ("error_step", RVal.s "dynamic")]
      ∧ (dynamicCheck true true gis).map (dictGet "success") =
          some (some (RVal.i 0))
      ∧ (dynamicCheck true true gis).map (dictGet "error_step") =
          some (some (RVal.s "dynamic")))
    ∧ ((∃ i ∈ gis, ∃ d ∈ i.dims, d.dimParam ≠ "") →
      dynamicCheck true true gis = none) := by
  constructor
  · intro h
    have hnil : dynamicDims gis = [] := (dynamicDims_eq_nil_iff gis).mpr h
    have he : dynamicCheck true true gis =
        some [("error", RVal.s "no dynamic shape"), ("success", RVal.i 0),
              ("error_step", RVal.s "dynamic")] := by
      simp [dynamicCheck, hnil]
    refine ⟨he, ?_, ?_⟩ <;> rw [he] <;> rfl
  · intro h
    have hne : dynamicDims gis ≠ [] := by
      intro hnil
      rcases h with ⟨i, hi, d, hd, hs⟩
      exact hs ((dynamicDims_eq_nil_iff gis).mp hnil i hi d hd)
    simp [dynamicCheck, hne]

/-- Witness for C3: a graph whose single input has one fixed dimension
(no symbolic axis) fails with `error_step = "dynamic"`, and a graph whose
single input has a symbolic dimension `"batch"` produces no such failure. -/
theorem dynamic_absence_check_witness :
    dynamicCheck true true [⟨"x", [⟨"", 5⟩]⟩] =
      some [("error", RVal.s "no dynamic shape"), ("success", RVal.i 0),
            ("error_step", RVal.s "dynamic")]
    ∧ dynamicCheck true true [⟨"x", [⟨"batch", 0⟩]⟩] = none := by
  constructor
  · exact ((dynamic_absence_check [⟨"x", [⟨"", 5⟩]⟩]).1 (by decide)).1
  · exact (dynamic_absence_check [⟨"x", [⟨"batch", 0⟩]⟩]).2
      ⟨⟨"x", [⟨"batch", 0⟩]⟩, by decide, ⟨"batch", 0⟩, by decide, by decide⟩

/-- C5: on the to-graph path, when the graph declares more named inputs than
there are top-level input values, the runner re-flattens the inputs through
`_flatten_inputs` to align the counts; if the number of graph input names
still differs from the number of flattened leaves, the quiet-mode run
returns a record with `success = 0` and `error_step = "inputs"` (never a
silent truncation). -/
theorem inputs_mismatch_hard_failure (names : List String) (inputs0 : List PyVal)
    (h1 : names.length > inputs0.length)
    (h2 : names.length ≠ (flattenItems inputs0).length) :
    alignFlats names inputs0 = flattenItems inputs0
    ∧ inputsCheck true names inputs0 onnxBase =
        some (StepOut.record (dictUpdate
          [("error", RVal.s "Input mismatch"), ("success", RVal.i 0),
           ("error_step", RVal.s "inputs")] onnxBase))
    ∧ dictGet "success" (dictUpdate
        [("error", RVal.s "Input mismatch"), ("success", RVal.i 0),
         ("error_step", RVal.s "inputs")] onnxBase) = some (RVal.i 0)
    ∧ dictGet "error_step" (dictUpdate
        [("error", RVal.s "Input mismatch"), ("success", RVal.i 0),
         ("error_step", RVal.s "inputs")] onnxBase) = some (RVal.s "inputs") := by
  have ha : alignFlats names inputs0 = flattenItems inputs0 := by
    simp [alignFlats, h1]
  refine ⟨ha, ?_, rfl, rfl⟩
  simp [inputsCheck, ha, h2]

/-- Witness for C5: a graph declaring two inputs against a single top-level
tuple value holding one nested pair of tensors; flattening yields two
leaves—here sabotaged to three by a nested triple—so the counts cannot be
aligned and the run fails with `error_step = "inputs"`. -/
theorem inputs_mismatch_hard_failure_witness :
    alignFlats ["a", "b"] [PyVal.pytuple [PyVal.tensor [2], PyVal.tensor [3], PyVal.tensor [4]]]
      = flattenItems [PyVal.pytuple [PyVal.tensor [2], PyVal.tensor [3], PyVal.tensor [4]]]
    ∧ inputsCheck true ["a", "b"]
        [PyVal.pytuple [PyVal.tensor [2], PyVal.tensor [3], PyVal.tensor [4]]] onnxBase =
        some (StepOut.record (dictUpdate
          [("error", RVal.s "Input mismatch"), ("success", RVal.i 0),
           ("error_step", RVal.s "inputs")] onnxBase))
    ∧ dictGet "success" (dictUpdate
        [("error", RVal.s "Input mismatch"), ("success", RVal.i 0),
         ("error_step", RVal.s "inputs")] onnxBase) = some (RVal.i 0)
    ∧ dictGet "error_step" (dictUpdate
        [("error", RVal.s "Input mismatch"), ("success", RVal.i 0),
         ("error_step", RVal.s "inputs")] onnxBase) = some (RVal.s "inputs") :=
  inputs_mismatch_hard_failure ["a", "b"]
    [PyVal.pytuple [PyVal.tensor [2], PyVal.tensor [3], PyVal.tensor [4]]]
    (by simp) (by simp [flattenItems])

theorem overwriteDisc_get (disc : Record) (a r : ℚ) (index : Nat) :
    dictGet "success" (overwriteDisc disc a r index) = some (RVal.i 0)
    ∧ dictGet "error_step" (overwriteDisc disc a r index) =
        some (RVal.s ("diff." ++ toString index))
    ∧ dictGet "error" (overwriteDisc disc a r index) =
        some (RVal.s ("diff." ++ toString index))
    ∧ dictGet "abs" (overwriteDisc disc a r index) = some (RVal.q a)
    ∧ dictGet "rel" (overwriteDisc disc a r index) = some (RVal.q r) := by
  simp only [overwriteDisc, dictUpdate, List.foldl_cons, List.foldl_nil]
  refine ⟨?_, ?_, ?_, ?_, ?_⟩
  · rw [dictSet_get_self]
  · rw [dictSet_get_ne _ _ _ _ (by decide), dictSet_get_self]
  · rw [dictSet_get_ne _ _ _ _ (by decide), dictSet_get_ne _ _ _ _ (by decide),
      dictSet_get_self]
  · rw [dictSet_get_ne _ _ _ _ (by decide), dictSet_get_ne _ _ _ _ (by decide),
      dictSet_get_ne _ _ _ _ (by decide), dictSet_get_ne _ _ _ _ (by decide),
      dictSet_get_self]
  · rw [dictSet_get_ne _ _ _ _ (by decide), dictSet_get_ne _ _ _ _ (by decide),
      dictSet_get_ne _ _ _ _ (by decide), dictSet_get_self]

theorem multiLoop_scored_go : ∀ (ds : List (ℚ × ℚ)) (disc : Record) (c : Nat),
    (lastFail c ds = none →
      multiLoop true disc c (scoredOutcomes ds) = LoopRes.done disc)
    ∧ (∀ j a r, lastFail c ds = some (j, a, r) →
        ∃ d2, multiLoop true disc c (scoredOutcomes ds) = LoopRes.done d2
          ∧ dictGet "success" d2 = some (RVal.i 0)
          ∧ dictGet "error_step" d2 = some (RVal.s ("diff." ++ toString j))
          ∧ dictGet "error" d2 = some (RVal.s ("diff." ++ toString j))
          ∧ dictGet "abs" d2 = some (RVal.q a)
          ∧ dictGet "rel" d2 = some (RVal.q r)) := by
  intro ds
  induction ds with
  | nil =>
    intro disc c
    exact ⟨fun _ => rfl, fun j a r h => by cases h⟩
  | cons p rest ih =>
    intro disc c
    rcases hrest : lastFail (c + 1) rest with _ | x
    · by_cases hp : p.1 ≥ 1/10
      · constructor
        · intro h
          simp only [lastFail, hrest, if_pos hp] at h
          exact Option.noConfusion h
        · intro j a r h
          simp only [lastFail, hrest, if_pos hp, Option.some.injEq,
            Prod.mk.injEq] at h
          obtain ⟨hj, ha, hr⟩ := h
          subst hj; subst ha; subst hr
          refine ⟨overwriteDisc disc p.1 p.2 c, ?_,
            (overwriteDisc_get disc p.1 p.2 c).1,
            (overwriteDisc_get disc p.1 p.2 c).2.1,
            (overwriteDisc_get disc p.1 p.2 c).2.2.1,
            (overwriteDisc_get disc p.1 p.2 c).2.2.2.1,
            (overwriteDisc_get disc p.1 p.2 c).2.2.2.2⟩
          simp only [scoredOutcomes, List.map_cons, multiLoop, if_pos hp]
          exact (ih (overwriteDisc disc p.1 p.2 c) (c + 1)).1 hrest
      · constructor
        · intro _
          simp only [scoredOutcomes, List.map_cons, multiLoop, if_neg hp]
          exact (ih disc (c + 1)).1 hrest
        · intro j a r h
          simp only [lastFail, hrest, if_neg hp] at h
          exact Option.noConfusion h
    · constructor
      · intro h
        simp only [lastFail, hrest] at h
        exact Option.noConfusion h
      · intro j a r h
        simp only [lastFail, hrest, Option.some.injEq] at h
        subst h
        by_cases hp : p.1 ≥ 1/10
        · rcases (ih (overwriteDisc disc p.1 p.2 c) (c + 1)).2 j a r hrest with
            ⟨d2, he, hrec⟩
          refine ⟨d2, ?_, hrec⟩
          simp only [scoredOutcomes, List.map_cons, multiLoop, if_pos hp]
          exact he
        · rcases (ih disc (c + 1)).2 j a r hrest with ⟨d2, he, hrec⟩
          refine ⟨d2, ?_, hrec⟩
          simp only [scoredOutcomes, List.map_cons, multiLoop, if_neg hp]
          exact he

/-- C7: on a dynamic run with several example inputs whose re-executions all
score, the multi-example loop walks every example; whenever example `j`
fails the `0.1` threshold its discrepancy values overwrite the aggregate
record's fields, `success` is downgraded to `0` and `error_step` becomes
`"diff.<j>"` — the final record carrying the values of the last failing
example — while a run with no failing example leaves the aggregate record
untouched. -/
theorem multi_example_recheck_overwrites (disc : Record) (ds : List (ℚ × ℚ)) :
    (lastFail 0 ds = none →
      multiLoop true disc 0 (scoredOutcomes ds) = LoopRes.done disc)
    ∧ (∀ j a r, lastFail 0 ds = some (j, a, r) →
        ∃ d2, multiLoop true disc 0 (scoredOutcomes ds) = LoopRes.done d2
          ∧ dictGet "success" d2 = some (RVal.i 0)
          ∧ dictGet "error_step" d2 = some (RVal.s ("diff." ++ toString j))
          ∧ dictGet "error" d2 = some (RVal.s ("diff." ++ toString j))
          ∧ dictGet "abs" d2 = some (RVal.q a)
          ∧ dictGet "rel" d2 = some (RVal.q r)) :=
  multiLoop_scored_go ds disc 0

/-- Witness for C7: two rescored examples, the first passing with zero
discrepancy, the second failing with `abs = 2`; the loop ends with the
second example's values, `success = 0` and `error_step = "diff.1"`. -/
theorem multi_example_recheck_overwrites_witness :
    ∃ d2, multiLoop true (scoreDisc 0 0) 0 (scoredOutcomes [(0, 0), (2, 1)]) =
        LoopRes.done d2
      ∧ dictGet "success" d2 = some (RVal.i 0)
      ∧ dictGet "error_step" d2 = some (RVal.s ("diff." ++ toString 1))
      ∧ dictGet "error" d2 = some (RVal.s ("diff." ++ toString 1))
      ∧ dictGet "abs" d2 = some (RVal.q 2)
      ∧ dictGet "rel" d2 = some (RVal.q 1) :=
  (multi_example_recheck_overwrites (scoreDisc 0 0) [(0, 0), (2, 1)]).2 1 2 1
    (by norm_num [lastFail])

/-- C4 (bug demonstration): in batch mode (`quiet=True`) the Evaluation
Driver can abort on a single combination's failure.  With one case, one
exporter and `dynamic=True`, where every stage of the first example
succeeds but the eager re-execution `model(*_clone(i))` of the second
example raises `ValueError("boom")` — a call the source leaves outside
every `try` block (line 652) — the exception escapes `run_exporter` even
though `quiet=True`, and `evaluation` propagates it instead of returning a
record list. -/
theorem evaluation_aborts_on_loop_eager_raise :
    run_exporter "export-strict" eagerBoomCase true true = StepOut.raised "boom"
    ∧ evaluation ["export-strict"] [true] [("M", eagerBoomCase)] =
        Except.error "boom" := by
  have hml : multiLoop true (scoreDisc 0 0) 0
      [ExOutcome.scored 0 0, ExOutcome.eagerRaise "boom"] =
      LoopRes.raisedL "boom" := by
    simp only [multiLoop, ite_self]
  have hrun : run_exporter "export-strict" eagerBoomCase true true =
      StepOut.raised "boom" := by
    show _loop_merge true (scoreDisc 0 0)
      [ExOutcome.scored 0 0, ExOutcome.eagerRaise "boom"]
      (dictUpdate baseRecord [("expected", RVal.obj 8), ("obtained", RVal.obj 9)])
      = StepOut.raised "boom"
    simp only [_loop_merge, hml]
  refine ⟨hrun, ?_⟩
  show evalLoop [(("M", eagerBoomCase), true, "export-strict")] =
    Except.error "boom"
  simp only [evalLoop, hrun]

theorem writeList_not_mem :
    ∀ (refs : List Nat) (vals : List (List Int)) (σ : Store) (i : Nat),
      i ∉ refs → (writeList σ refs vals).mem i = σ.mem i := by
  intro refs
  induction refs with
  | nil => intro vals σ i _; cases vals <;> rfl
  | cons rr rs ih =>
    intro vals σ i hni
    cases vals with
    | nil => rfl
    | cons v vs =>
      have hne : i ≠ rr := fun he => hni (he ▸ List.mem_cons_self rr rs)
      have hnotin : i ∉ rs := fun hm => hni (List.mem_cons_of_mem rr hm)
      show (writeList ⟨σ.size, fun j => if j = rr then v else σ.mem j⟩ rs vs).mem i
        = σ.mem i
      rw [ih vs _ i hnotin]
      simp [hne]

theorem writeList_same :
    ∀ (refs : List Nat) (σ σ0 : Store), (∀ j, σ.mem j = σ0.mem j) →
      ∀ i, (writeList σ refs (refs.map σ0.mem)).mem i = σ0.mem i := by
  intro refs
  induction refs with
  | nil => intro σ σ0 h i; exact h i
  | cons rr rs ih =>
    intro σ σ0 h i
    show (writeList ⟨σ.size, fun j => if j = rr then σ0.mem rr else σ.mem j⟩ rs
      (rs.map σ0.mem)).mem i = σ0.mem i
    refine ih _ σ0 ?_ i
    intro j
    by_cases hj : j = rr
    · subst hj; simp
    · simp [hj, h j]

theorem cloneArgs_mem_lt (σ : Store) (refs : List Nat) (i : Nat)
    (h : i < σ.size) : (cloneArgs σ refs).1.mem i = σ.mem i := by
  simp [cloneArgs, if_pos h]

theorem cloneArgs_refs_ge (σ : Store) (refs : List Nat) :
    ∀ j ∈ (cloneArgs σ refs).2, σ.size ≤ j := by
  intro j hj
  simp only [cloneArgs, List.mem_map, List.mem_range] at hj
  rcases hj with ⟨k, _, rfl⟩
  exact Nat.le_add_right σ.size k

/-- C6 (counterexample): the claim that both the eager model and the
transformed artifact run on cloned copies — so that the stored example
inputs are never mutated — is false: the artifact runs as `mod(*inputs[0])`
directly on the stored input objects, and an artifact that writes its
argument in place changes the stored tensor (`[5]` beforehand, `[7]`
afterwards). -/
theorem artifact_mutates_stored_inputs_counterexample :
    (execPhase mutatingModel mutatingArtifact storeEx [0]).2.2.mem 0 ≠
      storeEx.mem 0 := by decide

/-- C6 (amended): only the eager reference execution runs on cloned inputs:
for every (even input-mutating) model effect, as long as the ARTIFACT leaves
its arguments' contents unchanged, every stored example-input object is
unchanged after the scoring phase — the eager run `model(*_clone(inputs[0]))`
can never mutate the stored inputs, while `mod(*inputs[0])` (which runs
directly on them) is the only execution that can. -/
theorem eager_runs_on_clones_artifact_on_stored
    (modelEff modEff : Effect) (σ : Store) (inputs0 : List Nat)
    (hmod : ∀ vals, (modEff vals).2 = vals)
    (hvalid : ∀ i ∈ inputs0, i < σ.size) :
    ∀ i ∈ inputs0, (execPhase modelEff modEff σ inputs0).2.2.mem i = σ.mem i := by
  intro i hi
  have hlt := hvalid i hi
  have hni : i ∉ (cloneArgs σ inputs0).2 := by
    intro hmem
    exact absurd (cloneArgs_refs_ge σ inputs0 i hmem) (not_le.mpr hlt)
  simp only [execPhase, callOn]
  rw [hmod]
  rw [writeList_same inputs0 _ _ (fun _ => rfl) i]
  rw [writeList_not_mem _ _ _ i hni]
  exact cloneArgs_mem_lt σ inputs0 i hlt

/-- Witness for the amended C6: a mutating model effect together with a
content-preserving artifact leaves the stored tensor `[5]` unchanged. -/
theorem eager_runs_on_clones_artifact_on_stored_witness :
    (execPhase mutatingModel pureArtifact storeEx [0]).2.2.mem 0 =
      storeEx.mem 0 :=
  eager_runs_on_clones_artifact_on_stored mutatingModel pureArtifact storeEx [0]
    (fun _ => rfl) (by decide) 0 (by decide)

/-- C8: two tensors of shapes `(5,6)` and `(1,6)` passed through the
single-example all-dynamic classification path with the default prefix
`"d"` yield the dynamic-shape mappings `{0: "d_0_0", 1: "d_0_1"}` and
`{0: "d_1_0", 1: "d_1_1"}` — every axis dynamic, with one fresh symbolic
name per (leaf, axis) pair. -/
theorem all_dynamic_two_tensors :
    all_dynamic_shape_from_inputs
        (ITree.tup [ITree.tensor [5, 6], ITree.tensor [1, 6]]) (some "d")
      = DTree.tup
          [DTree.leaf [(0, DimVal.sym "d_0_0"), (1, DimVal.sym "d_0_1")],
           DTree.leaf [(0, DimVal.sym "d_1_0"), (1, DimVal.sym "d_1_1")]] := by
  rfl


theorem convEntry_some {kv p : String × AVal}
    (h : convEntry kv = some p) : p.1 = kv.1 ∧ p.2 = convertArg kv.2 := by
  unfold convEntry at h
  unfold convertArg
  rcases hi : pyInt kv.2 with _ | n
  · rw [hi] at h
    rcases hf : pyFloat kv.2 with _ | q
    · rw [hf] at h
      exact Option.noConfusion h
    · rw [hf] at h
      obtain rfl : (kv.1, AVal.aFloat q) = p := Option.some.inj h
      exact ⟨rfl, rfl⟩
  · rw [hi] at h
    obtain rfl : (kv.1, AVal.aInt n) = p := Option.some.inj h
    exact ⟨rfl, rfl⟩

theorem convEntry_none {kv : String × AVal} (h : convEntry kv = none) :
    convertArg kv.2 = kv.2 := by
  unfold convEntry at h
  unfold convertArg
  rcases hi : pyInt kv.2 with _ | n
  · rw [hi] at h
    rcases hf : pyFloat kv.2 with _ | q
    · rfl
    · rw [hf] at h
      exact Option.noConfusion h
  · rw [hi] at h
    exact Option.noConfusion h

theorem dictSet_fresh {α : Type} (r : List (String × α)) (k : String) (v : α)
    (h : ∀ kv ∈ r, kv.1 ≠ k) : dictSet r k v = r ++ [(k, v)] := by
  have ha : r.any (fun kv => kv.1 == k) ≠ true := by
    intro hc
    rcases List.any_eq_true.mp hc with ⟨kv, hkv, he⟩
    exact h kv hkv (beq_iff_eq.mp he)
  simp only [dictSet, if_neg ha]

theorem map_set_not_mem {α : Type} (r : List (String × α)) (k : String) (v : α)
    (h : ∀ kv ∈ r, kv.1 ≠ k) :
    r.map (fun kv => if kv.1 = k then (k, v) else kv) = r := by
  induction r with
  | nil => rfl
  | cons kv rest ih =>
    simp only [List.map_cons, if_neg (h kv (List.mem_cons_self kv rest))]
    rw [ih (fun p hp => h p (List.mem_cons_of_mem kv hp))]

theorem dictSet_cons_ne {α : Type} (x : String × α) (rest : List (String × α))
    (k : String) (v : α) (h : x.1 ≠ k) :
    dictSet (x :: rest) k v = x :: dictSet rest k v := by
  have hb : (x.1 == k) = false := by simpa using h
  by_cases ha : rest.any (fun kv => kv.1 == k) = true
  · have ha2 : ((x :: rest).any (fun kv => kv.1 == k)) = true := by
      simp only [List.any_cons, hb, Bool.false_or]
      exact ha
    simp only [dictSet, if_pos ha2, if_pos ha, List.map_cons, if_neg h]
  · have ha2 : ((x :: rest).any (fun kv => kv.1 == k)) ≠ true := by
      simp only [List.any_cons, hb, Bool.false_or]
      exact ha
    simp only [dictSet, if_neg ha2, if_neg ha, List.cons_append]

theorem dictSet_cons_self {α : Type} (k0 : String) (v0 v : α)
    (rest : List (String × α)) (h : ∀ u ∈ rest, u.1 ≠ k0) :
    dictSet ((k0, v0) :: rest) k0 v = (k0, v) :: rest := by
  have hany : (((k0, v0) :: rest).any (fun u => u.1 == k0)) = true := by
    simp
  show (if ((k0, v0) :: rest).any (fun u => u.1 == k0) = true then
      ((k0, v0) :: rest).map (fun kv => if kv.1 = k0 then (k0, v) else kv)
    else ((k0, v0) :: rest) ++ [(k0, v)]) = (k0, v) :: rest
  rw [if_pos hany, List.map_cons, if_pos rfl, map_set_not_mem rest k0 v h]

theorem dictUpdate_cons_ne {α : Type} (x : String × α) :
    ∀ (ups rest : List (String × α)), (∀ u ∈ ups, u.1 ≠ x.1) →
      dictUpdate (x :: rest) ups = x :: dictUpdate rest ups := by
  intro ups
  induction ups with
  | nil => intro rest _; rfl
  | cons u us ih =>
    intro rest h
    have hu : u.1 ≠ x.1 := h u (List.mem_cons_self u us)
    show dictUpdate (dictSet (x :: rest) u.1 u.2) us
      = x :: dictUpdate (dictSet rest u.1 u.2) us
    rw [dictSet_cons_ne x rest u.1 u.2 (fun he => hu he.symm)]
    exact ih (dictSet rest u.1 u.2) (fun p hp => h p (List.mem_cons_of_mem u hp))

theorem filterMap_conv_keys (res : List (String × AVal)) :
    ∀ u ∈ res.filterMap convEntry, u.1 ∈ res.map Prod.fst := by
  intro u hu
  rcases List.mem_filterMap.mp hu with ⟨kv, hkv, he⟩
  rcases convEntry_some he with ⟨h1, _⟩
  rw [h1]
  exact List.mem_map.mpr ⟨kv, hkv, rfl⟩

theorem argUpdates_go :
    ∀ (res acc : List (String × AVal)),
      (∀ kv ∈ res, kv.1 ∉ acc.map Prod.fst) → (res.map Prod.fst).Nodup →
      res.foldl
        (fun upd kv =>
          match convEntry kv with
          | some p => dictSet upd p.1 p.2
          | none => upd) acc
      = acc ++ res.filterMap convEntry := by
  intro res
  induction res with
  | nil => intro acc _ _; simp
  | cons kv rest ih =>
    intro acc hfresh hnd
    rw [List.map_cons] at hnd
    rcases List.nodup_cons.mp hnd with ⟨hk, hnd2⟩
    rcases hconv : convEntry kv with _ | p
    · simp only [List.foldl_cons, hconv, List.filterMap_cons_none hconv]
      exact ih acc (fun q hq => hfresh q (List.mem_cons_of_mem kv hq)) hnd2
    · rcases convEntry_some hconv with ⟨hp1, _⟩
      have hset : dictSet acc p.1 p.2 = acc ++ [p] := by
        refine dictSet_fresh acc p.1 p.2 ?_
        intro u hu he
        apply hfresh kv (List.mem_cons_self kv rest)
        have hm : u.1 ∈ acc.map Prod.fst := List.mem_map.mpr ⟨u, hu, rfl⟩
        rw [he, hp1] at hm
        exact hm
      simp only [List.foldl_cons, hconv, List.filterMap_cons_some hconv]
      rw [hset, ih (acc ++ [p]) ?_ hnd2, List.append_assoc]
      · rfl
      · intro q hq hmem
        rw [List.map_append] at hmem
        rcases List.mem_append.mp hmem with hm | hm
        · exact hfresh q (List.mem_cons_of_mem kv hq) hm
        · simp only [List.map_cons, List.map_nil, List.mem_singleton] at hm
          rw [hp1] at hm
          apply hk
          rw [← hm]
          exact List.mem_map.mpr ⟨q, hq, rfl⟩

theorem dictUpdate_conv :
    ∀ res : List (String × AVal), (res.map Prod.fst).Nodup →
      dictUpdate res (res.filterMap convEntry)
        = res.map (fun kv => (kv.1, convertArg kv.2)) := by
  intro res
  induction res with
  | nil => intro _; rfl
  | cons kv rest ih =>
    intro hnd
    rw [List.map_cons] at hnd
    rcases List.nodup_cons.mp hnd with ⟨hk, hnd2⟩
    have hrest : ∀ u ∈ rest, u.1 ≠ kv.1 := by
      intro u hu he
      apply hk
      rw [← he]
      exact List.mem_map.mpr ⟨u, hu, rfl⟩
    have hsub : ∀ u ∈ rest.filterMap convEntry, u.1 ≠ kv.1 := by
      intro u hu he
      apply hk
      rw [← he]
      exact filterMap_conv_keys rest u hu
    rcases hconv : convEntry kv with _ | p
    · rw [List.filterMap_cons_none hconv,
        dictUpdate_cons_ne kv (rest.filterMap convEntry) rest hsub,
        ih hnd2, List.map_cons, convEntry_none hconv]
    · rcases convEntry_some hconv with ⟨hp1, hp2⟩
      obtain ⟨k0, v0⟩ := kv
      have hp : p = (k0, convertArg v0) := Prod.ext hp1 hp2
      subst hp
      rw [List.filterMap_cons_some hconv]
      show dictUpdate (dictSet ((k0, v0) :: rest) k0 (convertArg v0))
          (rest.filterMap convEntry)
        = (k0, convertArg v0) :: rest.map (fun u => (u.1, convertArg u.2))
      rw [dictSet_cons_self k0 v0 (convertArg v0) rest hrest,
        dictUpdate_cons_ne (k0, convertArg v0) (rest.filterMap convEntry) rest
          hsub,
        ih hnd2]

/-- C9: `get_parsed_args` post-processing replaces every parsed argument
whose value Python's `int()` accepts by that int (ints pass through, floats
truncate toward zero, integer strings parse), otherwise every value
Python's `float()` accepts by that float, and leaves the rest unchanged —
including string-typed arguments, so the string `"3"` comes back as the
integer 3, never as the original string. -/
theorem parsed_args_coerced_to_numbers (res : List (String × AVal))
    (hnd : (res.map Prod.fst).Nodup) :
    get_parsed_args_post res = res.map (fun kv => (kv.1, convertArg kv.2))
    ∧ convertArg (AVal.aStr "3") = AVal.aInt 3
    ∧ (∀ v n, pyInt v = some n → convertArg v = AVal.aInt n)
    ∧ (∀ v q, pyInt v = none → pyFloat v = some q → convertArg v = AVal.aFloat q)
    ∧ (∀ v, pyInt v = none → pyFloat v = none → convertArg v = v) := by
  refine ⟨?_, rfl, ?_, ?_, ?_⟩
  · show dictUpdate res (argUpdates res) = _
    have h1 : argUpdates res = res.filterMap convEntry := by
      unfold argUpdates
      simpa using argUpdates_go res [] (by simp) hnd
    rw [h1]
    exact dictUpdate_conv res hnd
  · intro v n h
    unfold convertArg
    rw [h]
  · intro v q h1 h2
    unfold convertArg
    rw [h1, h2]
  · intro v h1 h2
    unfold convertArg
    rw [h1, h2]

/-- Witness for C9: a namespace holding a string `"3"` (coerced to the
integer 3), an int `7` (unchanged as an int) and a `None` (left
unchanged). -/
theorem parsed_args_coerced_to_numbers_witness :
    get_parsed_args_post
        [("x", AVal.aStr "3"), ("n", AVal.aInt 7), ("s", AVal.aNone)]
      = [("x", AVal.aInt 3), ("n", AVal.aInt 7), ("s", AVal.aNone)] := by
  rw [(parsed_args_coerced_to_numbers
    [("x", AVal.aStr "3"), ("n", AVal.aInt 7), ("s", AVal.aNone)]
    (by decide)).1]
  rfl

/-- C10: `filter_out_unexpected_inputs` returns exactly those entries of
`kwargs` whose key is a parameter name of the model's forward signature: the
result is a sublist of `kwargs` (original order kept, every retained value
unchanged, nothing added or renamed), and an entry belongs to the result iff
it belongs to `kwargs` and its key is allowed. -/
theorem filter_out_keeps_exactly_allowed {α : Type} (allowed : List String)
    (kwargs : List (String × α)) :
    (filter_out_unexpected_inputs allowed kwargs).Sublist kwargs
    ∧ ∀ kv : String × α,
        kv ∈ filter_out_unexpected_inputs allowed kwargs ↔
          kv ∈ kwargs ∧ kv.1 ∈ allowed := by
  constructor
  · exact List.filter_sublist kwargs
  · intro kv
    rw [filter_out_unexpected_inputs, List.mem_filter]
    constructor
    · rintro ⟨h1, h2⟩
      exact ⟨h1, by simpa using h2⟩
    · rintro ⟨h1, h2⟩
      exact ⟨h1, by simpa using h2⟩
